import Mathlib

/-!
Verification of the log aggregation core of `swiss-army-aws-tui`
(`internal/ui/logs_tab.go` and the CloudWatch Logs service wrapper).

Go values are embedded shallowly: `time.Time` becomes an integer number of
nanoseconds, `map[string][]LogEntry` becomes a total function
`String → List LogEntry` defaulting to the empty list (Go map reads of
missing keys yield the zero value), and fallible or panicking operations
return `Option`.
-/

namespace SwissArmyTui

/-- Embedding of the Go struct `LogEntry` (logs_tab.go lines 53-60).
`Timestamp` is the `time.Time` value as integer nanoseconds.  `Fields`
(`map[string]interface{}` in Go) is modelled as an association list whose
values are the strings produced by `fmt.Sprintf("%v", v)`, which is the only
way the code ever consumes them; `Highlights` mirrors `map[string][]string`. -/
structure LogEntry where
  Timestamp : Int
  Level : String
  Message : String
  Source : String
  Fields : List (String × String)
  Highlights : List (String × List String)
deriving Repr, DecidableEq, Inhabited

/-- The `maxLines` value installed by `NewLogsTab` (logs_tab.go line 84). -/
def maxLinesDefault : Nat := 1000

/-- Effect of `addLogEntry` (logs_tab.go lines 761-783) on the buffer of the
source being appended to: the entry is appended, and afterwards the slice is
cut down to its last `maxLines` elements whenever its length exceeds
`maxLines` (`lt.logs[sourceName] = lt.logs[sourceName][len(...)-lt.maxLines:]`). -/
def addLogEntry (maxLines : Nat) (buf : List LogEntry) (e : LogEntry) : List LogEntry :=
  let grown := buf ++ [e]
  if maxLines < grown.length then grown.drop (grown.length - maxLines) else grown

/-- The store `lt.logs` right after `NewLogsTab`: every source maps to the
empty buffer (a missing key of a Go map reads as the zero-value slice). -/
def emptyStore : String → List LogEntry := fun _ => []

/-- `addLogEntry` seen at the level of the whole `lt.logs` map: only the
buffer of `src` changes. -/
def addLogEntryStore (maxLines : Nat) (logs : String → List LogEntry)
    (src : String) (e : LogEntry) : String → List LogEntry :=
  fun s => if s = src then addLogEntry maxLines (logs s) e else logs s

/-- Runs a whole sequence of `addLogEntry` calls, starting from the empty
store. -/
def runAppends (maxLines : Nat) (ops : List (String × LogEntry)) : String → List LogEntry :=
  ops.foldl (fun logs op => addLogEntryStore maxLines logs op.1 op.2) emptyStore

/-- The entries appended to source `s`, in call order. -/
def appendsTo (s : String) (ops : List (String × LogEntry)) : List LogEntry :=
  (ops.filter (fun op => op.1 == s)).map (fun op => op.2)

/-- The last `m` elements of a list (all of it when it is shorter). -/
def lastN (m : Nat) (l : List LogEntry) : List LogEntry :=
  l.drop (l.length - m)

/-- The characters Go's `unicode.IsSpace` accepts — the Unicode White_Space
code points: U+0009-U+000D, U+0020, U+0085, U+00A0, U+1680, U+2000-U+200A,
U+2028, U+2029, U+202F, U+205F and U+3000. -/
def goIsSpace (c : Char) : Bool :=
  c = ' ' || c = '\t' || c = '\n' || c = '\x0B' || c = '\x0C' || c = '\r' ||
  c = '\x85' || c = '\xA0' || c = '\u1680' ||
  (0x2000 ≤ c.toNat && c.toNat ≤ 0x200A) ||
  c = '\u2028' || c = '\u2029' || c = '\u202F' || c = '\u205F' || c = '\u3000'

/-- Go's `strings.TrimSpace`: `unicode.IsSpace` characters removed from both
ends. -/
def goTrimSpace (l : List Char) : List Char :=
  ((l.dropWhile goIsSpace).reverse.dropWhile goIsSpace).reverse

/-- Go's `strings.ToLower` on one character.  Only the ASCII range matters to
the theorems in this file; other characters are left unchanged, which agrees
with `unicode.ToLower` on every character these theorems use. -/
def goToLowerChar (c : Char) : Char := c.toLower

/-- Go's `strings.ToUpper` on one character, with the same ASCII restriction
as `goToLowerChar`. -/
def goToUpperChar (c : Char) : Char := c.toUpper

/-- Whether `pre` occurs at the very start of `s`. -/
def leadsWith : List Char → List Char → Bool
  | [], _ => true
  | _ :: _, [] => false
  | a :: as, b :: bs => a == b && leadsWith as bs

/-- Go's `strings.Contains s sub` (substring containment; `Contains s "" = true`). -/
def goContainsSub : List Char → List Char → Bool
  | s, sub =>
    leadsWith sub s ||
      match s with
      | [] => false
      | _ :: t => goContainsSub t sub

/-- The filter predicate of `applyFilter` (logs_tab.go lines 309-315): the
lowered filter text must occur in the lowered message, level or source. -/
def entryMatchesFilter (ft : List Char) (e : LogEntry) : Bool :=
  goContainsSub (e.Message.toList.map goToLowerChar) ft ||
  goContainsSub (e.Level.toList.map goToLowerChar) ft ||
  goContainsSub (e.Source.toList.map goToLowerChar) ft

/-- The subset of `lt.filteredLogs` that `applyFilter` keeps (logs_tab.go
lines 303-316): everything when the trimmed, lowered filter text is empty,
otherwise the entries matching it. -/
def applyFilterSelect (buffer : List LogEntry) (raw : String) : List LogEntry :=
  let ft := (goTrimSpace raw.toList).map goToLowerChar
  if ft.isEmpty then buffer else buffer.filter (entryMatchesFilter ft)

/-- Display order used by `applyFilter`: ascending timestamps. -/
def tsLe (a b : LogEntry) : Prop := a.Timestamp ≤ b.Timestamp

instance : DecidableRel tsLe := fun a b => inferInstanceAs (Decidable (a.Timestamp ≤ b.Timestamp))

instance : IsTotal LogEntry tsLe := ⟨fun a b => Int.le_total a.Timestamp b.Timestamp⟩

instance : IsTrans LogEntry tsLe := ⟨fun _ _ _ h1 h2 => le_trans h1 h2⟩

/-- The sequence of entries `applyFilter` renders into the text view
(logs_tab.go lines 297-388): the filtered entries, sorted by
`sort.Slice(filtered, ...Timestamp.Before...)`.  `sort.Slice` guarantees a
timestamp-sorted permutation of its input but is not stable; insertion sort
realises such a permutation. -/
def applyFilterDisplay (buffer : List LogEntry) (raw : String) : List LogEntry :=
  List.insertionSort tsLe (applyFilterSelect buffer raw)

/-- The sequence of entries `updateLogDisplayFromFiltered` renders
(logs_tab.go lines 687-759): its `for _, log := range lt.filteredLogs` loop
emits the entries exactly in the order of `lt.filteredLogs` — unlike
`applyFilter`, no `sort.Slice` call precedes the loop. -/
def updateLogDisplayFromFilteredSeq (filteredLogs : List LogEntry) : List LogEntry :=
  filteredLogs

/-- Embedding of the Bleve query values built by `buildSearchQuery`.
`matchQ` carries the field set with `SetField` and the boost set with
`SetBoost`; a boost is recorded as an exact numerator/denominator pair, so
the float `1.5` is `(3, 2)`, and `none` means no boost was set.  The only
disjunction the code builds is `NewDisjunctionQuery` over match queries, so
`disjunction` holds the (field, term, boost) triples of its members. -/
inductive BleveQuery where
  | queryString (s : String)
  | matchQ (field : String) (term : String) (boost : Option (Nat × Nat))
  | disjunction (qs : List (String × String × Option (Nat × Nat)))
deriving Repr, DecidableEq

/-- `buildSearchQuery` (logs_tab.go lines 621-646).  The Go code checks
`strings.Contains(queryStr, " ")`, `strings.Contains(queryStr, "\"")` and
`strings.Contains(queryStr, "*")`; containment of a one-character substring
is containment of that character. -/
def buildSearchQuery (queryStr : String) : Option BleveQuery :=
  if goTrimSpace queryStr.toList = [] then
    none
  else if queryStr.toList.contains ' ' || queryStr.toList.contains '"' ||
      queryStr.toList.contains '*' then
    some (.queryString queryStr)
  else
    some (.disjunction
      [("Message", queryStr, some (3, 2)),
       ("Level", queryStr, none),
       ("Source", queryStr, none)])

/-- Which handler `onFilterChanged` (logs_tab.go lines 390-397) hands the
text to. -/
inductive FilterRoute where
  | searchQuery
  | plainFilter
deriving Repr, DecidableEq

/-- `onFilterChanged`: text containing a space, a double quote or an asterisk
goes to `performSearch`; everything else goes to `applyFilter`. -/
def onFilterChangedRoute (text : String) : FilterRoute :=
  if text.toList.contains ' ' || text.toList.contains '"' || text.toList.contains '*' then
    .searchQuery
  else
    .plainFilter

/-- Outcome of `performSearch` (logs_tab.go lines 469-528), abstracting the
Bleve index itself: with a nil index the function sets the status message
"Search index not available" and returns without touching the view; with a
nil query it falls back to `applyFilter`; otherwise it issues the built query
to the index. -/
inductive SearchOutcome where
  | indexUnavailable
  | fallbackFilter (shown : List LogEntry)
  | indexedSearch (q : BleveQuery)
deriving Repr, DecidableEq

/-- `performSearch` on the state it reads: whether `lt.searchIndex` is nil,
the query string (also the current content of the filter input), and
`lt.filteredLogs`, which is what the fallback `applyFilter` filters. -/
def performSearch (indexAvailable : Bool) (queryStr : String)
    (filteredLogs : List LogEntry) : SearchOutcome :=
  if !indexAvailable then
    .indexUnavailable
  else
    match buildSearchQuery queryStr with
    | none => .fallbackFilter (applyFilterDisplay filteredLogs queryStr)
    | some q => .indexedSearch q

/-- A small concrete entry used by counterexamples and witnesses. -/
def entryAt (t : Int) (msg : String) : LogEntry :=
  ⟨t, "INFO", msg, "app", [], []⟩

/-- Decimal digits of a natural number, most significant first.  The fuel
argument makes the recursion structural, so terms reduce inside the kernel;
`n + 1` steps always suffice. -/
def natDigitsCore : Nat → Nat → List Char → List Char
  | 0, _, acc => acc
  | fuel + 1, n, acc =>
    if n < 10 then Char.ofNat (48 + n % 10) :: acc
    else natDigitsCore fuel (n / 10) (Char.ofNat (48 + n % 10) :: acc)

/-- Decimal rendering of a natural number. -/
def natDigits (n : Nat) : List Char :=
  natDigitsCore (n + 1) n []

/-- Zero-padded decimal rendering, as produced by the zero-padded verbs of
Go's time layout (`01`, `02`, `15`, `04`, `05`, `000`, `2006`). -/
def padNat (width n : Nat) : List Char :=
  List.replicate (width - (natDigits n).length) '0' ++ natDigits n

/-- Gregorian date for a count of days since the Unix epoch: the standard
civil-from-days computation, matching Go's absolute-time date calculation.
Returns (year, month, day). -/
def civilFromDays (z0 : Int) : Int × Nat × Nat :=
  let z := z0 + 719468
  let era := Int.fdiv z 146097
  let doe := (z - era * 146097).toNat
  let yoe := (doe - doe / 1460 + doe / 36524 - doe / 146096) / 365
  let y := (yoe : Int) + era * 400
  let doy := doe - (365 * yoe + yoe / 4 - yoe / 100)
  let mp := (5 * doy + 2) / 153
  let d := doy - (153 * mp + 2) / 5 + 1
  let m := if mp < 10 then mp + 3 else mp - 9
  (if m ≤ 2 then y + 1 else y, m, d)

/-- The characters of `t.Format("2006-01-02 15:04:05.000")` for the instant
`ns` nanoseconds since the Unix epoch: date, clock time, and the millisecond
fraction (truncated).  Go renders a `time.Time` in its location; this model
uses UTC, and every property proved about it here (digit structure, absence
of newlines) is location-independent. -/
def goFormatDateTimeMilli (ns : Int) : List Char :=
  let sec := Int.fdiv ns 1000000000
  let nsec := (Int.fmod ns 1000000000).toNat
  let days := Int.fdiv sec 86400
  let sod := (Int.fmod sec 86400).toNat
  let c := civilFromDays days
  let yearChars :=
    if c.1 < 0 then '-' :: padNat 4 c.1.natAbs else padNat 4 c.1.toNat
  yearChars ++ '-' :: padNat 2 c.2.1 ++ '-' :: padNat 2 c.2.2 ++
    ' ' :: padNat 2 (sod / 3600) ++ ':' :: padNat 2 (sod % 3600 / 60) ++
    ':' :: padNat 2 (sod % 60) ++ '.' :: padNat 3 (nsec / 1000000)

/-- One line as written by `ExportLogs` (logs_tab.go lines 1191-1195):
`fmt.Sprintf("%s [%s] %s\n", log.Timestamp.Format("2006-01-02 15:04:05.000"),
strings.ToUpper(log.Level), log.Message)`. -/
def exportLine (e : LogEntry) : List Char :=
  goFormatDateTimeMilli e.Timestamp ++
    ' ' :: '[' :: (e.Level.toList.map goToUpperChar ++
      ']' :: ' ' :: (e.Message.toList ++ ['\n']))

/-- The full text `ExportLogs` (logs_tab.go lines 1177-1203) writes for the
currently selected source: one `exportLine` per buffered entry, in insertion
order; a source without a buffer writes nothing. -/
def exportLogs (logs : String → List LogEntry) (selectedSource : String) : List Char :=
  (logs selectedSource).flatMap exportLine

/-- The number of lines a reader of the exported file sees: its newline
count, each written line being newline-terminated. -/
def countLines (l : List Char) : Nat := l.count '\n'

/-- A store whose selected buffer holds one entry whose message embeds a
newline (as multi-line CloudWatch messages do). -/
def demoStoreNL : String → List LogEntry :=
  fun s => if s = "app" then [⟨0, "INFO", "a\nb", "app", [], []⟩] else []

/-- A store whose selected buffer holds one newline-free entry. -/
def demoStoreOk : String → List LogEntry :=
  fun s => if s = "app" then [entryAt 0 "ok"] else []

/-- Joint state of the selected source's buffer and of the search index.
`store` is `lt.logs[selectedSource]`, `indexed` the entries present in the
Bleve index, `pending` the entries whose `go lt.indexLogEntry(entry)`
goroutine (spawned by `addLogEntry`, logs_tab.go line 773) has not yet run,
and `history` a ghost field recording every entry ever appended. -/
structure IndexedStoreState where
  store : List LogEntry
  indexed : List LogEntry
  pending : List LogEntry
  history : List LogEntry
deriving Repr, DecidableEq

/-- One step of the store/index system.  `append` is `addLogEntry`
(logs_tab.go 761-783): the buffer grows and is trimmed to `maxLines`, and an
asynchronous indexing goroutine is spawned.  `indexDone` is the completion
of one such `indexLogEntry` goroutine (449-466): the entry enters the index.
`clear` is `clearLogs` (836-845): the selected source's buffer is emptied —
neither `clearLogs` nor the eviction inside `addLogEntry` touches the
index. -/
inductive StoreStep : IndexedStoreState → IndexedStoreState → Prop
  | append (s : IndexedStoreState) (e : LogEntry) :
      StoreStep s
        ⟨addLogEntry maxLinesDefault s.store e, s.indexed, s.pending ++ [e], s.history ++ [e]⟩
  | indexDone (s : IndexedStoreState) (e : LogEntry) (p1 p2 : List LogEntry)
      (h : s.pending = p1 ++ e :: p2) :
      StoreStep s ⟨s.store, s.indexed ++ [e], p1 ++ p2, s.history⟩
  | clear (s : IndexedStoreState) :
      StoreStep s ⟨[], s.indexed, s.pending, s.history⟩

/-- Reachability by store/index steps. -/
def StoreReach : IndexedStoreState → IndexedStoreState → Prop :=
  Relation.ReflTransGen StoreStep

/-- The store/index state right after `NewLogsTab`. -/
def storeInit : IndexedStoreState := ⟨[], [], [], []⟩

/-- A state with an empty buffer but a non-empty index, reached by
appending, indexing, and clearing. -/
def clearedState : IndexedStoreState :=
  ⟨[], [entryAt 0 "hello"], [], [entryAt 0 "hello"]⟩

/-- The state after one append whose asynchronous indexing has completed. -/
def indexedState : IndexedStoreState :=
  ⟨[entryAt 0 "hello"], [entryAt 0 "hello"], [], [entryAt 0 "hello"]⟩

/-- Embedding of `clients.LogEvent` (part_000 lines 337-341); timestamps are
CloudWatch millisecond values. -/
structure LogEvent where
  Timestamp : Int
  Message : String
  IngestionTime : Int
deriving Repr, DecidableEq, Inhabited

/-- One iteration of the per-stream loop of `loadCloudWatchLogs`
(logs_tab.go 1009-1018): a successful `GetLogEvents` call appends its events
to `allEvents`; a failing one is logged with (group, stream) context —
recorded here by the stream's name — and the loop `continue`s. -/
def loadStep (fetch : String → Except String (List LogEvent))
    (acc : List LogEvent × List String) (stream : String) :
    List LogEvent × List String :=
  match fetch stream with
  | .ok evs => (acc.1 ++ evs, acc.2)
  | .error _ => (acc.1, acc.2 ++ [stream])

/-- The whole load loop over the streams, from an empty accumulator: the
events gathered and the streams whose fetch failed (logged and skipped). -/
def loadEventsBatch (fetch : String → Except String (List LogEvent))
    (streams : List String) : List LogEvent × List String :=
  streams.foldl (loadStep fetch) ([], [])

/-- One stream's handling inside a poll tick of `TailLogStreams`
(part_000 lines 558-578).  A stream without a recorded token is skipped
(`nextTokens[streamName]` missing or nil — both are `none` here); a fetch
error is sent to `errorChan` — recorded here by stream name — and the loop
`continue`s; on success the events are forwarded and the stream's token
advances when a non-nil `newNextToken` is returned. -/
def tickStep (fetch : String → String → Except String (List LogEvent × Option String))
    (acc : List LogEvent × (String → Option String) × List String)
    (stream : String) :
    List LogEvent × (String → Option String) × List String :=
  match acc.2.1 stream with
  | none => acc
  | some tok =>
    match fetch stream tok with
    | .error _ => (acc.1, acc.2.1, acc.2.2 ++ [stream])
    | .ok (evs, newTok) =>
      (acc.1 ++ evs,
       (match newTok with
        | some t => fun s => if s = stream then some t else acc.2.1 s
        | none => acc.2.1),
       acc.2.2)

/-- One full poll tick of `TailLogStreams` over all tracked streams. -/
def tailTick (fetch : String → String → Except String (List LogEvent × Option String))
    (tokens : String → Option String) (streamNames : List String) :
    List LogEvent × (String → Option String) × List String :=
  streamNames.foldl (tickStep fetch) ([], tokens, [])

/-- A fetch that fails on the stream "bad" and succeeds elsewhere. -/
def demoFetch : String → Except String (List LogEvent) :=
  fun s => if s = "bad" then .error "boom" else .ok [⟨0, s, 0⟩]

/-- A tick fetch that fails on the stream "bad" and succeeds elsewhere. -/
def demoTickFetch : String → String → Except String (List LogEvent × Option String) :=
  fun s tok => if s = "bad" then .error "boom" else .ok ([⟨1, s, 0⟩], some (tok ++ "+"))

/-- A token table holding one token for every stream. -/
def demoTokens : String → Option String := fun _ => some "tk"

/-- State of one tailing session: the consumer `select` loop started by
`startTailing` (logs_tab.go 1087-1124), the `TailLogStreams` producer
goroutine (part_000 522-582) and the buffered `eventsChan` of capacity 100
between them.  `fetched` holds events a `GetLogEvents*` call has returned
that the producer has not yet pushed into the channel; `appended` records
the entries handed to `addLogEntry` for the source. -/
structure TailRunState where
  cancelled : Bool
  chanBuf : List LogEvent
  fetched : List LogEvent
  producerAlive : Bool
  consumerAlive : Bool
  appended : List LogEvent
deriving Repr, DecidableEq

/-- One scheduler step of a tailing session.  Where the Go `select` has both
a ready communication case and a closed `ctx.Done()` channel, Go chooses
uniformly among the ready cases, so `sendEvent` and `deliver` require no
`cancelled = false`; `fetchReturn` likewise models the completion of a call
that may already have its response when cancellation fires. -/
inductive TailStep : TailRunState → TailRunState → Prop
  | cancel (s : TailRunState) :
      TailStep s { s with cancelled := true }
  | fetchReturn (s : TailRunState) (evs : List LogEvent)
      (h : s.producerAlive = true) (hp : s.fetched = []) :
      TailStep s { s with fetched := evs }
  | sendEvent (s : TailRunState) (e : LogEvent) (rest : List LogEvent)
      (h : s.producerAlive = true) (hf : s.fetched = e :: rest)
      (hcap : s.chanBuf.length < 100) :
      TailStep s { s with fetched := rest, chanBuf := s.chanBuf ++ [e] }
  | producerObservesCancel (s : TailRunState)
      (h : s.producerAlive = true) (hc : s.cancelled = true) :
      TailStep s { s with producerAlive := false }
  | deliver (s : TailRunState) (e : LogEvent) (rest : List LogEvent)
      (h : s.consumerAlive = true) (hb : s.chanBuf = e :: rest) :
      TailStep s { s with chanBuf := rest, appended := s.appended ++ [e] }
  | consumerObservesCancel (s : TailRunState)
      (h : s.consumerAlive = true) (hc : s.cancelled = true) :
      TailStep s { s with consumerAlive := false }

/-- Reachability by tailing-session steps. -/
def TailReach : TailRunState → TailRunState → Prop := Relation.ReflTransGen TailStep

/-- A freshly started tailing session. -/
def tailRunInit : TailRunState := ⟨false, [], [], true, true, []⟩

/-- A concrete event used in the C8 trace. -/
def demoEvent : LogEvent := ⟨0, "tick", 0⟩

/-- A cancelled session whose consumer has not yet observed cancellation and
whose channel still buffers one event fetched before cancellation. -/
def cancelledPending : TailRunState := ⟨true, [demoEvent], [], true, true, []⟩

/-- Control state of `startTailing`/`stopTailing` for the active log group:
one entry per live tailing goroutine (`true` once that goroutine's context
has been cancelled), plus the shared `tailingActive` flag. -/
structure TailingCtl where
  loops : List Bool
  tailingActive : Bool
deriving Repr, DecidableEq

/-- `startTailing` (logs_tab.go 1071-1092): it returns early when
`tailingActive` is set; otherwise it invokes the existing `cloudWatchCancel`
(if any) — cancelling the context every live loop runs under — creates a
fresh context, sets the flag and spawns a new tailing goroutine, without
waiting for any cancelled loop to exit.  `stop` is `stopTailing`
(1156-1165): cancel and clear the flag.  `exitLoop` is a tailing goroutine
returning; its deferred handler clears the shared `tailingActive` flag. -/
inductive CtlStep : TailingCtl → TailingCtl → Prop
  | start (s : TailingCtl) (h : s.tailingActive = false) :
      CtlStep s ⟨s.loops.map (fun _ => true) ++ [false], true⟩
  | startSkip (s : TailingCtl) (h : s.tailingActive = true) :
      CtlStep s s
  | stop (s : TailingCtl) :
      CtlStep s ⟨s.loops.map (fun _ => true), false⟩
  | exitLoop (s : TailingCtl) (l1 l2 : List Bool) (b : Bool)
      (h : s.loops = l1 ++ b :: l2) :
      CtlStep s ⟨l1 ++ l2, false⟩

/-- Reachability by control steps. -/
def CtlReach : TailingCtl → TailingCtl → Prop := Relation.ReflTransGen CtlStep

/-- The control state before any tailing has started. -/
def ctlInit : TailingCtl := ⟨[], false⟩

/-- A Go string as its UTF-8 bytes.  `renderSimpleHighlight` indexes and
slices strings byte-wise (`strings.Index`, `text[i:j]`, `len`), so it is
modelled at the byte level. -/
abbrev GoStr := List Nat

/-- Is `b` a UTF-8 continuation byte? -/
def isCont (b : Nat) : Bool := 0x80 ≤ b && b ≤ 0xBF

/-- Lower acceptance bound for the second byte of a multi-byte sequence
(Go's `acceptRanges`): rejects overlong encodings and surrogates. -/
def acceptLo (b : Nat) : Nat :=
  if b = 0xE0 then 0xA0 else if b = 0xF0 then 0x90 else 0x80

/-- Upper acceptance bound for the second byte of a multi-byte sequence. -/
def acceptHi (b : Nat) : Nat :=
  if b = 0xED then 0x9F else if b = 0xF4 then 0x8F else 0xBF

/-- UTF-8 decoding of a byte list into code points, as the
`DecodeRuneInString` loop inside Go's `strings.Map`/`strings.ToLower` does:
an invalid byte yields U+FFFD and consumes one byte.  The fuel makes the
recursion structural; `s.length` steps always suffice since every step
consumes at least one byte. -/
def utf8DecodeCore : Nat → GoStr → List Nat
  | 0, _ => []
  | _ + 1, [] => []
  | fuel + 1, b :: rest =>
    if b < 0x80 then b :: utf8DecodeCore fuel rest
    else if 0xC2 ≤ b && b ≤ 0xDF then
      match rest with
      | b2 :: rest2 =>
        if isCont b2 then ((b - 0xC0) * 64 + (b2 - 0x80)) :: utf8DecodeCore fuel rest2
        else 0xFFFD :: utf8DecodeCore fuel rest
      | [] => [0xFFFD]
    else if 0xE0 ≤ b && b ≤ 0xEF then
      match rest with
      | b2 :: b3 :: rest3 =>
        if (acceptLo b ≤ b2 && b2 ≤ acceptHi b) && isCont b3 then
          ((b - 0xE0) * 4096 + (b2 - 0x80) * 64 + (b3 - 0x80)) :: utf8DecodeCore fuel rest3
        else 0xFFFD :: utf8DecodeCore fuel rest
      | _ => 0xFFFD :: utf8DecodeCore fuel rest
    else if 0xF0 ≤ b && b ≤ 0xF4 then
      match rest with
      | b2 :: b3 :: b4 :: rest4 =>
        if (acceptLo b ≤ b2 && b2 ≤ acceptHi b) && isCont b3 && isCont b4 then
          ((b - 0xF0) * 262144 + (b2 - 0x80) * 4096 + (b3 - 0x80) * 64 + (b4 - 0x80)) ::
            utf8DecodeCore fuel rest4
        else 0xFFFD :: utf8DecodeCore fuel rest
      | _ => 0xFFFD :: utf8DecodeCore fuel rest
    else 0xFFFD :: utf8DecodeCore fuel rest

/-- UTF-8 decoding with sufficient fuel. -/
def utf8Decode (s : GoStr) : List Nat := utf8DecodeCore s.length s

/-- UTF-8 encoding of one code point. -/
def utf8EncodeRune (r : Nat) : GoStr :=
  if r < 0x80 then [r]
  else if r < 0x800 then [0xC0 + r / 64, 0x80 + r % 64]
  else if r < 0x10000 then [0xE0 + r / 4096, 0x80 + r / 64 % 64, 0x80 + r % 64]
  else [0xF0 + r / 262144, 0x80 + r / 4096 % 64, 0x80 + r / 64 % 64, 0x80 + r % 64]

/-- `unicode.ToLower`, restricted to the code points the theorems below
exercise: ASCII letters, and U+212A KELVIN SIGN whose lower case is the
one-byte `k` (U+006B).  Every other code point maps to itself, which agrees
with `unicode.ToLower` on all code points appearing in these theorems. -/
def goRuneToLower (r : Nat) : Nat :=
  if 65 ≤ r && r ≤ 90 then r + 32
  else if r = 0x212A then 0x6B
  else r

/-- Go's `strings.ToLower` at the byte level: decode, lower each code
point, re-encode. -/
def goToLowerBytes (s : GoStr) : GoStr :=
  (utf8Decode s).flatMap (fun r => utf8EncodeRune (goRuneToLower r))

/-- Whether `pre` occurs at the very start of `s` (byte version). -/
def leadsWithB : GoStr → GoStr → Bool
  | [], _ => true
  | _ :: _, [] => false
  | a :: as, b :: bs => a == b && leadsWithB as bs

/-- Helper of `goIndexBytes`: offset of the first occurrence, counting from
`i`. -/
def goIndexFrom (sub : GoStr) : Nat → GoStr → Option Nat
  | i, s =>
    if leadsWithB sub s then some i
    else
      match s with
      | [] => none
      | _ :: t => goIndexFrom sub (i + 1) t

/-- Go's `strings.Index` at the byte level: the byte offset of the first
occurrence of `sub` in `s` (`none` for Go's -1). -/
def goIndexBytes (s sub : GoStr) : Option Nat := goIndexFrom sub 0 s

/-- Go's `s[i:]`: `none` is the run-time panic when `i > len(s)`. -/
def goSliceFrom (s : GoStr) (i : Nat) : Option GoStr :=
  if i ≤ s.length then some (s.drop i) else none

/-- Go's `s[i:j]`: `none` is the run-time panic unless `i ≤ j ≤ len(s)`. -/
def goSliceRange (s : GoStr) (i j : Nat) : Option GoStr :=
  if i ≤ j && j ≤ s.length then some ((s.take j).drop i) else none

/-- The pieces `renderSimpleHighlight` writes to its `strings.Builder`, in
order: plain slices of `text`, and matched slices that
`fmt.Sprintf("[#ffff00::b]%s[-]", ...)` wraps in the two markers. -/
inductive HPiece where
  | plain (s : GoStr)
  | highlighted (s : GoStr)
deriving Repr, DecidableEq

/-- The bytes of the opening marker the Sprintf inserts before a match. -/
def markStart : GoStr := [91, 35, 102, 102, 102, 102, 48, 48, 58, 58, 98, 93]

/-- The bytes of the closing marker inserted after a match. -/
def markEnd : GoStr := [91, 45, 93]

/-- The builder's final byte content: each highlighted piece wrapped in the
two markers. -/
def renderedBytes (ps : List HPiece) : GoStr :=
  ps.flatMap (fun p =>
    match p with
    | .plain s => s
    | .highlighted s => markStart ++ s ++ markEnd)

/-- The builder's content with the two inserted marker strings deleted:
only the slices of `text` remain, in order. -/
def strippedBytes (ps : List HPiece) : GoStr :=
  ps.flatMap (fun p =>
    match p with
    | .plain s => s
    | .highlighted s => s)

/-- The `for` loop of `renderSimpleHighlight` (logs_tab.go lines 571-585).
Each iteration computes `index := strings.Index(lowerText[start:],
lowerSearch)`; on a miss it writes `text[start:]` and stops; on a hit it
writes `text[start : start+index]`, then the match
`text[matchStart : matchEnd]` wrapped in markers, where
`matchEnd = matchStart + len(searchTerm)`, and continues from `matchEnd`.
A `none` result is a Go runtime panic: one of the byte-slice expressions
was out of range.  The fuel counts loop iterations; `start` advances by at
least `len(searchTerm)` per iteration, so `lowerText`'s length plus two
iterations always suffice for a nonempty term, and exhausted fuel (Go's
infinite loop on an empty term) also yields `none`. -/
def renderLoop (fuel : Nat) (text lowerText lowerSearch : GoStr) (termLen : Nat)
    (start : Nat) (acc : List HPiece) : Option (List HPiece) :=
  match fuel with
  | 0 => none
  | fuel + 1 =>
    match goSliceFrom lowerText start with
    | none => none
    | some rem =>
      match goIndexBytes rem lowerSearch with
      | none =>
        match goSliceFrom text start with
        | none => none
        | some tail => some (acc ++ [.plain tail])
      | some idx =>
        match goSliceRange text start (start + idx),
            goSliceRange text (start + idx) (start + idx + termLen) with
        | some pre, some m =>
          renderLoop fuel text lowerText lowerSearch termLen
            (start + idx + termLen) (acc ++ [.plain pre, .highlighted m])
        | _, _ => none

/-- `renderSimpleHighlight` (logs_tab.go lines 564-588) at the byte level:
lower the text and the search term, then run the scan loop from offset 0. -/
def renderSimpleHighlight (text searchTerm : GoStr) : Option (List HPiece) :=
  renderLoop ((goToLowerBytes text).length + 2) text (goToLowerBytes text)
    (goToLowerBytes searchTerm) searchTerm.length 0 []

/-- The UTF-8 bytes of the KELVIN SIGN U+212A, a three-byte character whose
lower case is the single byte `k`. -/
def kelvinBytes : GoStr := [0xE2, 0x84, 0xAA]

/-- The bytes of an ASCII string. -/
def asciiBytes (s : String) : GoStr := s.toList.map Char.toNat

theorem lastN_length (m : Nat) (l : List LogEntry) : (lastN m l).length = min m l.length := by
  simp [lastN]
  omega

theorem addLogEntry_lastN (m : Nat) (l : List LogEntry) (e : LogEntry) :
    addLogEntry m (lastN m l) e = lastN m (l ++ [e]) := by
  rcases Nat.eq_zero_or_pos m with rfl | hm0
  · simp [addLogEntry, lastN]
  simp only [addLogEntry, lastN]
  have hd : (l.drop (l.length - m)).length = l.length - (l.length - m) := by simp
  by_cases hm : m ≤ l.length
  · -- the buffer was already full: one element is evicted from the front
    have hlen : (l.drop (l.length - m) ++ [e]).length = m + 1 := by simp; omega
    rw [if_pos (by rw [hlen]; omega)]
    rw [hlen]
    have h1 : m + 1 - m = 1 := by omega
    rw [h1]
    rw [List.drop_append_of_le_length (by rw [hd]; omega)]
    rw [List.drop_drop]
    have h2 : (l ++ [e]).length - m = l.length - m + 1 := by simp; omega
    rw [h2]
    rw [List.drop_append_of_le_length (by omega)]
  · -- still below capacity: nothing is evicted
    have h0 : l.length - m = 0 := by omega
    rw [h0, List.drop_zero]
    rw [if_neg (by simp; omega)]
    have h1 : (l ++ [e]).length - m = 0 := by simp; omega
    rw [h1, List.drop_zero]

theorem runAppends_eq (m : Nat) (ops : List (String × LogEntry)) (s : String) :
    runAppends m ops s = lastN m (appendsTo s ops) := by
  induction ops using List.reverseRecOn with
  | nil => simp [runAppends, emptyStore, appendsTo, lastN]
  | append_singleton ops op ih =>
    simp only [runAppends, List.foldl_append, List.foldl_cons, List.foldl_nil] at *
    simp only [addLogEntryStore]
    by_cases hs : s = op.1
    · subst hs
      simp only [if_pos rfl, if_true, ite_true]
      rw [ih, addLogEntry_lastN]
      have : appendsTo op.1 (ops ++ [op]) = appendsTo op.1 ops ++ [op.2] := by
        simp [appendsTo, List.filter_append]
      rw [this]
    · rw [if_neg hs, ih]
      congr 1
      simp only [appendsTo, List.filter_append]
      have : (op.1 == s) = false := by
        simp only [beq_eq_false_iff_ne, ne_eq]
        exact fun hc => hs hc.symm
      simp [this]

/-- Claim C1: for every source and every sequence of `addLogEntry` calls,
after each call the per-source buffer holds at most `maxLines` entries, and
the retained entries are exactly the most recent `maxLines` entries appended
to that source, oldest evicted first (FIFO).  The first conjunct gives the
bound after any single call from any state; the second identifies the buffer
reached by any call sequence with the suffix of the appended entries (so the
bound and FIFO retention hold after every intermediate call as well, each
prefix of `ops` being such a sequence). -/
theorem claim1_addLogEntry_bounded_fifo :
    (∀ (m : Nat) (buf : List LogEntry) (e : LogEntry),
        buf.length ≤ m → (addLogEntry m buf e).length ≤ m) ∧
    (∀ (m : Nat) (ops : List (String × LogEntry)) (s : String),
        runAppends m ops s = lastN m (appendsTo s ops) ∧
        (runAppends m ops s).length ≤ m) := by
  constructor
  · intro m buf e _
    simp only [addLogEntry]
    split
    · simp only [List.length_drop]
      omega
    · next h =>
      omega
  · intro m ops s
    refine ⟨runAppends_eq m ops s, ?_⟩
    rw [runAppends_eq m ops s]
    rw [lastN_length]
    omega

/-- Witness for C1 at a concrete input: three appends with `maxLines = 2`
retain exactly the last two entries. -/
theorem claim1_witness :
    (([] : List LogEntry).length ≤ 2 →
      (addLogEntry 2 [] ⟨0, "INFO", "a", "app", [], []⟩).length ≤ 2) ∧
    runAppends 2
        [("app", ⟨0, "INFO", "a", "app", [], []⟩),
         ("app", ⟨1, "INFO", "b", "app", [], []⟩),
         ("app", ⟨2, "INFO", "c", "app", [], []⟩)] "app" =
      lastN 2 (appendsTo "app"
        [("app", ⟨0, "INFO", "a", "app", [], []⟩),
         ("app", ⟨1, "INFO", "b", "app", [], []⟩),
         ("app", ⟨2, "INFO", "c", "app", [], []⟩)]) := by
  exact ⟨claim1_addLogEntry_bounded_fifo.1 2 [] ⟨0, "INFO", "a", "app", [], []⟩,
    (claim1_addLogEntry_bounded_fifo.2 2 _ "app").1⟩

/-- Claim C2 counterexample: the display path used for indexed search
results, `updateLogDisplayFromFiltered`, renders `lt.filteredLogs` in the
order the search returned them, without re-sorting — so for a search query
whose hits arrive as [T2, T1] the rendered view is [T2, T1], not ordered by
timestamp ascending as the claim states for every filter or search query. -/
theorem claim2_counterexample :
    updateLogDisplayFromFilteredSeq [entryAt 2 "b", entryAt 1 "a"] =
      [entryAt 2 "b", entryAt 1 "a"] ∧
    ¬ List.Sorted tsLe (updateLogDisplayFromFilteredSeq [entryAt 2 "b", entryAt 1 "a"]) := by
  refine ⟨rfl, ?_⟩
  intro h
  have h12 := List.rel_of_sorted_cons h (entryAt 1 "a") (by simp)
  simp [tsLe, entryAt] at h12

/-- Claim C2 (amended): the plain-filter path `applyFilter` sorts at read
time — its rendered view is a timestamp-ascending permutation of the
filtered entries, and in particular entries with timestamps [T2, T1, T3]
render as [T1, T2, T3]; the indexed-search path
`updateLogDisplayFromFiltered` renders the hits in the order the search
produced them and does not re-sort. -/
theorem claim2_amended :
    (∀ (buffer : List LogEntry) (raw : String),
        List.Sorted tsLe (applyFilterDisplay buffer raw) ∧
        List.Perm (applyFilterDisplay buffer raw) (applyFilterSelect buffer raw)) ∧
    applyFilterDisplay [entryAt 2 "b", entryAt 1 "a", entryAt 3 "c"] "" =
      [entryAt 1 "a", entryAt 2 "b", entryAt 3 "c"] ∧
    (∀ filteredLogs : List LogEntry,
        updateLogDisplayFromFilteredSeq filteredLogs = filteredLogs) := by
  refine ⟨fun buffer raw => ⟨List.sorted_insertionSort tsLe _, List.perm_insertionSort tsLe _⟩,
    by decide, fun _ => rfl⟩

/-- Claim C4 counterexample: the raw query "a\tb" contains whitespace (a tab
character, accepted by Go's `unicode.IsSpace`), yet it is NOT classified as a
structured query-string expression: `buildSearchQuery` only tests for the
space character `' '`, `'"'` and `'*'`, so "a\tb" takes the single-term
disjunction path and `onFilterChanged` routes it to the plain filter rather
than to `performSearch`. -/
theorem claim4_counterexample :
    goIsSpace '\t' = true ∧
    '\t' ∈ "a\tb".toList ∧
    buildSearchQuery "a\tb" =
      some (.disjunction
        [("Message", "a\tb", some (3, 2)),
         ("Level", "a\tb", none),
         ("Source", "a\tb", none)]) ∧
    onFilterChangedRoute "a\tb" = .plainFilter := by
  refine ⟨rfl, by decide, by decide, rfl⟩

/-- Claim C4 (amended): the classification tests for a space character
(U+0020), a double-quote character or an asterisk — not for arbitrary
whitespace or arbitrary quote characters.  A raw string empty after trimming
yields no query; one containing a space, double quote or asterisk becomes a
query-string expression; any other string becomes a disjunction over the
Message field (boost 1.5), the Level field and the Source field. -/
theorem claim4_amended (q : String) :
    (goTrimSpace q.toList = [] → buildSearchQuery q = none) ∧
    (goTrimSpace q.toList ≠ [] →
      (q.toList.contains ' ' || q.toList.contains '"' || q.toList.contains '*') = true →
      buildSearchQuery q = some (.queryString q)) ∧
    (goTrimSpace q.toList ≠ [] →
      (q.toList.contains ' ' || q.toList.contains '"' || q.toList.contains '*') = false →
      buildSearchQuery q =
        some (.disjunction
          [("Message", q, some (3, 2)),
           ("Level", q, none),
           ("Source", q, none)])) := by
  refine ⟨fun h => ?_, fun h hc => ?_, fun h hc => ?_⟩
  · unfold buildSearchQuery
    rw [if_pos h]
  · unfold buildSearchQuery
    rw [if_neg h, if_pos hc]
  · unfold buildSearchQuery
    rw [if_neg h, if_neg (by simpa using hc)]

/-- Witness for C4 at concrete inputs: "a b" contains a space and is
classified as a query-string expression, and a query consisting only of the
ideographic space U+3000 — whitespace `strings.TrimSpace` trims — is empty
after trimming and yields no query. -/
theorem claim4_witness :
    buildSearchQuery "a b" = some (.queryString "a b") ∧
    buildSearchQuery "\u3000" = none :=
  ⟨(claim4_amended "a b").2.1 (by decide) (by decide),
   (claim4_amended "\u3000").1 (by decide)⟩

/-- Claim C5 counterexample: with a nil search index, `performSearch` sets
the status message "Search index not available" and returns immediately — it
does not apply the plain case-insensitive substring filter over the buffered
entries, contrary to the claim's "whenever the search index is unavailable
(nil) ... applies a plain ... filter". -/
theorem claim5_counterexample :
    performSearch false "a b" [entryAt 1 "a b"] = .indexUnavailable ∧
    performSearch false "a b" [entryAt 1 "a b"] ≠
      .fallbackFilter (applyFilterDisplay [entryAt 1 "a b"] "a b") := by
  exact ⟨rfl, by decide⟩

/-- Claim C5 (amended): when the index IS available and the query is empty
after trimming, `performSearch` falls back to the plain filter
(`applyFilter`), whose empty filter text admits every buffered entry; a nil
index instead aborts with a status message and performs no filtering. -/
theorem claim5_amended (buffer : List LogEntry) (q : String)
    (h : goTrimSpace q.toList = []) :
    performSearch true q buffer = .fallbackFilter (applyFilterDisplay buffer q) ∧
    applyFilterDisplay buffer q = List.insertionSort tsLe buffer := by
  have hq : buildSearchQuery q = none := by
    unfold buildSearchQuery
    rw [if_pos h]
  constructor
  · simp [performSearch, hq]
  · unfold applyFilterDisplay applyFilterSelect
    rw [h]
    simp

/-- Witness for C5 at a concrete input: the all-spaces query " " with an
available index falls back to the plain filter. -/
theorem claim5_witness :
    performSearch true " " [entryAt 1 "x"] =
      .fallbackFilter (applyFilterDisplay [entryAt 1 "x"] " ") :=
  (claim5_amended [entryAt 1 "x"] " " (by decide)).1

theorem char_toNat_ofNat_lt (k : Nat) (hk : k < 55296) : (Char.ofNat k).toNat = k := by
  unfold Char.ofNat
  rw [dif_pos (Or.inl hk)]
  simp [Char.ofNatAux, Char.toNat, UInt32.ofNat', UInt32.toNat, BitVec.toNat_ofNatLt]

theorem digitChar_ne_nl (d : Nat) (hd : d < 10) : Char.ofNat (48 + d) ≠ '\n' := by
  intro he
  have ht := congrArg Char.toNat he
  rw [char_toNat_ofNat_lt (48 + d) (by omega),
    show ('\n').toNat = 10 from rfl] at ht
  omega

theorem natDigitsCore_count_nl (fuel : Nat) :
    ∀ (n : Nat) (acc : List Char),
      (natDigitsCore fuel n acc).count '\n' = acc.count '\n' := by
  induction fuel with
  | zero => intro n acc; rfl
  | succ fuel ih =>
    intro n acc
    have hne : ('\n' == Char.ofNat (48 + n % 10)) = false :=
      beq_eq_false_iff_ne.mpr (Ne.symm (digitChar_ne_nl (n % 10) (Nat.mod_lt _ (by omega))))
    have hne' : Char.ofNat (48 + n % 10) ≠ '\n' :=
      digitChar_ne_nl (n % 10) (Nat.mod_lt _ (by omega))
    unfold natDigitsCore
    split
    · simp [List.count_cons, hne, hne']
    · rw [ih]
      simp [List.count_cons, hne, hne']

theorem natDigits_count_nl (n : Nat) : (natDigits n).count '\n' = 0 := by
  unfold natDigits
  rw [natDigitsCore_count_nl]
  rfl

theorem padNat_count_nl (w n : Nat) : (padNat w n).count '\n' = 0 := by
  have hne : ('\n' == '0') = false := by decide
  unfold padNat
  rw [List.count_append, natDigits_count_nl, List.count_replicate]
  simp [hne]

theorem goFormat_count_nl (ns : Int) : (goFormatDateTimeMilli ns).count '\n' = 0 := by
  have h1 : ('\n' == '-') = false := by decide
  have h2 : ('\n' == ':') = false := by decide
  have h3 : ('\n' == '.') = false := by decide
  have h4 : ('\n' == ' ') = false := by decide
  simp only [goFormatDateTimeMilli]
  by_cases hy : (civilFromDays (Int.fdiv (Int.fdiv ns 1000000000) 86400)).1 < 0
  · rw [if_pos hy]
    simp [List.count_append, List.count_cons, padNat_count_nl, h1, h2, h3, h4]
  · rw [if_neg hy]
    simp [List.count_append, List.count_cons, padNat_count_nl, h1, h2, h3, h4]

theorem goToUpperChar_ne_nl (c : Char) (h : c ≠ '\n') : goToUpperChar c ≠ '\n' := by
  unfold goToUpperChar Char.toUpper
  simp only []
  by_cases hin : c.toNat ≥ 97 ∧ c.toNat ≤ 122
  · rw [if_pos hin]
    intro he
    have ht := congrArg Char.toNat he
    rw [char_toNat_ofNat_lt (c.toNat - 32) (by omega),
      show ('\n').toNat = 10 from rfl] at ht
    omega
  · rw [if_neg hin]
    exact h

theorem count_nl_map_goToUpperChar (l : List Char) (h : '\n' ∉ l) :
    (l.map goToUpperChar).count '\n' = 0 := by
  induction l with
  | nil => rfl
  | cons c t ih =>
    have hc : c ≠ '\n' := fun e => h (by simp [e])
    have hne : ('\n' == goToUpperChar c) = false :=
      beq_eq_false_iff_ne.mpr (Ne.symm (goToUpperChar_ne_nl c hc))
    simp only [List.map_cons, List.count_cons, hne]
    simp [ih (fun hm => h (List.mem_cons_of_mem _ hm)), goToUpperChar_ne_nl c hc]

theorem exportLine_count_nl (e : LogEntry)
    (hm : '\n' ∉ e.Message.toList) (hl : '\n' ∉ e.Level.toList) :
    (exportLine e).count '\n' = 1 := by
  have h5 : ('\n' == '[') = false := by decide
  have h6 : ('\n' == ']') = false := by decide
  have h4 : ('\n' == ' ') = false := by decide
  have hm' : '\n' ∉ e.Message.data := hm
  have hl' : '\n' ∉ e.Level.data := hl
  unfold exportLine
  rw [List.count_append, goFormat_count_nl]
  simp [List.count_cons, List.count_append, count_nl_map_goToUpperChar e.Level.data hl',
    List.count_eq_zero.mpr hm', h4, h5, h6]

theorem export_flatMap_count_nl (l : List LogEntry)
    (h : ∀ e ∈ l, '\n' ∉ e.Message.toList ∧ '\n' ∉ e.Level.toList) :
    (l.flatMap exportLine).count '\n' = l.length := by
  induction l with
  | nil => rfl
  | cons e t ih =>
    rw [List.flatMap_cons, List.count_append,
      exportLine_count_nl e (h e (by simp)).1 (h e (by simp)).2,
      ih (fun x hx => h x (List.mem_cons_of_mem _ hx))]
    simp [Nat.add_comm]

/-- Claim C3 counterexample: a buffered message containing an embedded
newline produces two lines in the exported file for a single buffered entry,
so re-reading the file does not in general yield a line count equal to the
buffered entry count. -/
theorem claim3_counterexample :
    countLines (exportLogs demoStoreNL "app") = 2 ∧
    (demoStoreNL "app").length = 1 := by
  constructor
  · decide
  · rfl

/-- Claim C3 (amended): `ExportLogs` writes exactly one
`YYYY-MM-DD HH:MM:SS.mmm [LEVEL] MESSAGE\n` line per buffered entry of the
selected source, in insertion order; provided no buffered message or level
of that source embeds a newline character, re-reading the file yields a line
count equal to the buffered entry count (a message with embedded newlines
inflates the count by the number of embedded newlines). -/
theorem claim3_amended (logs : String → List LogEntry) (sel : String)
    (h : ∀ e ∈ logs sel, '\n' ∉ e.Message.toList ∧ '\n' ∉ e.Level.toList) :
    exportLogs logs sel = (logs sel).flatMap exportLine ∧
    countLines (exportLogs logs sel) = (logs sel).length := by
  refine ⟨rfl, ?_⟩
  unfold exportLogs countLines
  exact export_flatMap_count_nl (logs sel) h

/-- Witness for C3 at a concrete input: a single newline-free entry exports
as exactly one line. -/
theorem claim3_witness : countLines (exportLogs demoStoreOk "app") = 1 :=
  (claim3_amended demoStoreOk "app" (by decide)).2

theorem addLogEntry_mem (m : Nat) (buf : List LogEntry) (e x : LogEntry)
    (hx : x ∈ addLogEntry m buf e) : x ∈ buf ++ [e] := by
  simp only [addLogEntry] at hx
  split at hx
  · exact List.drop_subset _ _ hx
  · exact hx

/-- Claim C6 counterexample: append an entry, let its asynchronous indexing
complete, then `clearLogs` — the buffer is empty but the index still holds
the entry, so the index contains an entry absent from the store. -/
theorem claim6_counterexample :
    StoreReach storeInit clearedState ∧
    entryAt 0 "hello" ∈ clearedState.indexed ∧
    entryAt 0 "hello" ∉ clearedState.store := by
  refine ⟨?_, by simp [clearedState], by simp [clearedState]⟩
  have h1 : StoreStep storeInit
      ⟨[entryAt 0 "hello"], [], [entryAt 0 "hello"], [entryAt 0 "hello"]⟩ :=
    StoreStep.append storeInit (entryAt 0 "hello")
  have h2 : StoreStep
      ⟨[entryAt 0 "hello"], [], [entryAt 0 "hello"], [entryAt 0 "hello"]⟩
      ⟨[entryAt 0 "hello"], [entryAt 0 "hello"], [], [entryAt 0 "hello"]⟩ :=
    StoreStep.indexDone _ (entryAt 0 "hello") [] [] rfl
  have h3 : StoreStep
      ⟨[entryAt 0 "hello"], [entryAt 0 "hello"], [], [entryAt 0 "hello"]⟩
      clearedState :=
    StoreStep.clear _
  exact .head h1 (.head h2 (.head h3 .refl))

/-- Claim C6 (amended): the search index is only ever added to — neither
`clearLogs` nor the eviction in `addLogEntry` removes entries from it — so
every indexed (or pending) entry is among the entries appended so far, but,
after a Clear or an eviction, an indexed entry need not still be in the
store. -/
theorem claim6_amended (s : IndexedStoreState) (h : StoreReach storeInit s) :
    (∀ e ∈ s.indexed, e ∈ s.history) ∧
    (∀ e ∈ s.pending, e ∈ s.history) ∧
    (∀ e ∈ s.store, e ∈ s.history) := by
  induction h with
  | refl => simp [storeInit]
  | tail hr hstep ih =>
    rcases ih with ⟨hi, hp, hs⟩
    cases hstep with
    | append e =>
      refine ⟨fun x hx => ?_, fun x hx => ?_, fun x hx => ?_⟩
      · exact List.mem_append_left _ (hi x hx)
      · rcases List.mem_append.mp hx with hx | hx
        · exact List.mem_append_left _ (hp x hx)
        · exact List.mem_append_right _ hx
      · rcases List.mem_append.mp (addLogEntry_mem _ _ _ _ hx) with hx | hx
        · exact List.mem_append_left _ (hs x hx)
        · exact List.mem_append_right _ hx
    | indexDone e p1 p2 hpe =>
      refine ⟨fun x hx => ?_, fun x hx => ?_, hs⟩
      · rcases List.mem_append.mp hx with hx | hx
        · exact hi x hx
        · rcases List.mem_singleton.mp hx with rfl
          exact hp x (by simp [hpe])
      · refine hp x ?_
        rw [hpe]
        rcases List.mem_append.mp hx with hx | hx
        · exact List.mem_append_left _ hx
        · exact List.mem_append_right _ (List.mem_cons_of_mem _ hx)
    | clear =>
      exact ⟨hi, hp, by simp⟩

/-- Witness for C6 at a concrete reachable state: after appending one entry
and letting its asynchronous indexing complete, the indexed entry is among
the appended entries. -/
theorem claim6_witness : entryAt 0 "hello" ∈ indexedState.history := by
  have h1 : StoreStep storeInit
      ⟨[entryAt 0 "hello"], [], [entryAt 0 "hello"], [entryAt 0 "hello"]⟩ :=
    StoreStep.append storeInit (entryAt 0 "hello")
  have h2 : StoreStep
      ⟨[entryAt 0 "hello"], [], [entryAt 0 "hello"], [entryAt 0 "hello"]⟩
      indexedState :=
    StoreStep.indexDone _ (entryAt 0 "hello") [] [] rfl
  have hreach : StoreReach storeInit indexedState := .head h1 (.head h2 .refl)
  exact (claim6_amended indexedState hreach).1 (entryAt 0 "hello") (by decide)

theorem loadEventsBatch_foldl (f : String → Except String (List LogEvent)) :
    ∀ (l : List String) (acc : List LogEvent × List String),
      List.foldl (loadStep f) acc l =
        (acc.1 ++ (loadEventsBatch f l).1, acc.2 ++ (loadEventsBatch f l).2) := by
  intro l
  induction l with
  | nil => intro acc; simp [loadEventsBatch]
  | cons s t ih =>
    intro acc
    have hB : loadEventsBatch f (s :: t) = List.foldl (loadStep f) (loadStep f ([], []) s) t := rfl
    rw [List.foldl_cons, ih, hB, ih]
    cases hfs : f s <;> simp [loadStep, hfs]

theorem tailTick_foldl (g : String → String → Except String (List LogEvent × Option String)) :
    ∀ (l : List String) (e0 : List LogEvent) (t0 : String → Option String) (r0 : List String),
      List.foldl (tickStep g) (e0, t0, r0) l =
        (e0 ++ (tailTick g t0 l).1, (tailTick g t0 l).2.1, r0 ++ (tailTick g t0 l).2.2) := by
  intro l
  induction l with
  | nil => intro e0 t0 r0; simp [tailTick]
  | cons s t ih =>
    intro e0 t0 r0
    have hB : tailTick g t0 (s :: t) = List.foldl (tickStep g) (tickStep g ([], t0, []) s) t := rfl
    rw [List.foldl_cons, hB]
    cases hts : t0 s with
    | none =>
      have h1 : tickStep g (e0, t0, r0) s = (e0, t0, r0) := by simp [tickStep, hts]
      have h2 : tickStep g ([], t0, []) s = ([], t0, []) := by simp [tickStep, hts]
      rw [h1, h2, ih, ih]
      simp
    | some tok =>
      cases hg : g s tok with
      | error msg =>
        have h1 : tickStep g (e0, t0, r0) s = (e0, t0, r0 ++ [s]) := by simp [tickStep, hts, hg]
        have h2 : tickStep g ([], t0, []) s = ([], t0, [s]) := by simp [tickStep, hts, hg]
        rw [h1, h2, ih, ih]
        simp
      | ok evtok =>
        have h1 : tickStep g (e0, t0, r0) s =
            (e0 ++ evtok.1,
             (match evtok.2 with
              | some tk => fun x => if x = s then some tk else t0 x
              | none => t0),
             r0) := by
          simp [tickStep, hts, hg]
        have h2 : tickStep g ([], t0, []) s =
            ([] ++ evtok.1,
             (match evtok.2 with
              | some tk => fun x => if x = s then some tk else t0 x
              | none => t0),
             []) := by
          simp [tickStep, hts, hg]
        rw [h1, h2, ih, ih]
        simp

/-- Claim C7: in both the initial batch load (`loadCloudWatchLogs`) and a
tailing poll tick (`TailLogStreams`), the failure of one stream's fetch is
caught individually: that stream is recorded as logged and skipped, every
sibling stream before and after it is still fetched and contributes its
events exactly as it would in the failing stream's absence, and neither the
batch nor the tick is aborted. -/
theorem claim7_per_stream_failure_isolated :
    (∀ (f : String → Except String (List LogEvent)) (xs ys : List String)
        (bad err : String), f bad = .error err →
      loadEventsBatch f (xs ++ bad :: ys) =
        ((loadEventsBatch f xs).1 ++ (loadEventsBatch f ys).1,
         (loadEventsBatch f xs).2 ++ bad :: (loadEventsBatch f ys).2)) ∧
    (∀ (g : String → String → Except String (List LogEvent × Option String))
        (t : String → Option String) (xs ys : List String) (bad err : String),
      (∀ tok, g bad tok = .error err) →
      tailTick g t (xs ++ bad :: ys) =
        ((tailTick g t xs).1 ++ (tailTick g (tailTick g t xs).2.1 ys).1,
         (tailTick g (tailTick g t xs).2.1 ys).2.1,
         (tailTick g t xs).2.2 ++
           (match (tailTick g t xs).2.1 bad with
            | some _ => [bad]
            | none => []) ++
           (tailTick g (tailTick g t xs).2.1 ys).2.2)) := by
  constructor
  · intro f xs ys bad err hbad
    unfold loadEventsBatch
    rw [List.foldl_append, List.foldl_cons]
    have hmid : loadStep f (List.foldl (loadStep f) ([], []) xs) bad =
        ((List.foldl (loadStep f) ([], []) xs).1,
         (List.foldl (loadStep f) ([], []) xs).2 ++ [bad]) := by
      simp [loadStep, hbad]
    rw [hmid, loadEventsBatch_foldl]
    simp [loadEventsBatch]
  · intro g t xs ys bad err hbad
    unfold tailTick
    rw [List.foldl_append, List.foldl_cons]
    cases htb : (List.foldl (tickStep g) ([], t, []) xs).2.1 bad with
    | none =>
      have hmid : tickStep g (List.foldl (tickStep g) ([], t, []) xs) bad =
          List.foldl (tickStep g) ([], t, []) xs := by
        simp [tickStep, htb]
      rw [hmid, tailTick_foldl]
      have : (tailTick g t xs).2.1 bad = none := htb
      simp [tailTick, this]
    | some tok =>
      have hmid : tickStep g (List.foldl (tickStep g) ([], t, []) xs) bad =
          ((List.foldl (tickStep g) ([], t, []) xs).1,
           (List.foldl (tickStep g) ([], t, []) xs).2.1,
           (List.foldl (tickStep g) ([], t, []) xs).2.2 ++ [bad]) := by
        simp [tickStep, htb, hbad tok]
      rw [hmid, tailTick_foldl]
      have heq : (tailTick g t xs).2.1 bad = some tok := htb
      simp [tailTick, heq]

/-- Witness for C7 at concrete inputs: the stream list ["s1", "bad", "s2"]
with a fetch failing exactly on "bad", in both the batch and the tick. -/
theorem claim7_witness :
    loadEventsBatch demoFetch ["s1", "bad", "s2"] =
      ((loadEventsBatch demoFetch ["s1"]).1 ++ (loadEventsBatch demoFetch ["s2"]).1,
       (loadEventsBatch demoFetch ["s1"]).2 ++ "bad" :: (loadEventsBatch demoFetch ["s2"]).2) ∧
    tailTick demoTickFetch demoTokens (["s1"] ++ "bad" :: ["s2"]) =
      ((tailTick demoTickFetch demoTokens ["s1"]).1 ++
         (tailTick demoTickFetch (tailTick demoTickFetch demoTokens ["s1"]).2.1 ["s2"]).1,
       (tailTick demoTickFetch (tailTick demoTickFetch demoTokens ["s1"]).2.1 ["s2"]).2.1,
       (tailTick demoTickFetch demoTokens ["s1"]).2.2 ++
         (match (tailTick demoTickFetch demoTokens ["s1"]).2.1 "bad" with
          | some _ => ["bad"]
          | none => []) ++
         (tailTick demoTickFetch (tailTick demoTickFetch demoTokens ["s1"]).2.1 ["s2"]).2.2) :=
  ⟨claim7_per_stream_failure_isolated.1 demoFetch ["s1"] ["s2"] "bad" "boom" rfl,
   claim7_per_stream_failure_isolated.2 demoTickFetch demoTokens ["s1"] ["s2"] "bad" "boom"
     (fun _ => rfl)⟩

/-- Claim C8 counterexample: a session in which cancellation has already
been triggered, with one event still buffered in `eventsChan` from a fetch
completed before cancellation, is reachable — and from it the consumer's
`select` may legally pick the event case over the closed `ctx.Done()` case
and append the entry, so an entry IS appended after cancellation was
triggered. -/
theorem claim8_counterexample :
    TailReach tailRunInit cancelledPending ∧
    cancelledPending.cancelled = true ∧
    cancelledPending.appended = [] ∧
    TailStep cancelledPending ⟨true, [], [], true, true, [demoEvent]⟩ := by
  refine ⟨?_, rfl, rfl, ?_⟩
  · have h1 : TailStep tailRunInit ⟨false, [], [demoEvent], true, true, []⟩ :=
      TailStep.fetchReturn tailRunInit [demoEvent] rfl rfl
    have h2 : TailStep ⟨false, [], [demoEvent], true, true, []⟩
        ⟨false, [demoEvent], [], true, true, []⟩ :=
      TailStep.sendEvent _ demoEvent [] rfl rfl (by decide)
    have h3 : TailStep ⟨false, [demoEvent], [], true, true, []⟩ cancelledPending :=
      TailStep.cancel _
    exact .head h1 (.head h2 (.head h3 .refl))
  · exact TailStep.deliver cancelledPending demoEvent [] rfl rfl

/-- Claim C8 (amended): appends stop only once the consumer loop has
observed cancellation (taken the `ctx.Done()` branch and returned); from
any state in which the consumer has terminated, no continuation of the run
ever appends another entry.  Until the consumer observes cancellation,
events already fetched and buffered before the signal may still be
appended. -/
theorem claim8_amended (s s' : TailRunState) (h : TailReach s s')
    (hc : s.consumerAlive = false) :
    s'.appended = s.appended ∧ s'.consumerAlive = false := by
  induction h with
  | refl => exact ⟨rfl, hc⟩
  | tail hr hstep ih =>
    rcases ih with ⟨ha, hca⟩
    cases hstep with
    | cancel => exact ⟨ha, hca⟩
    | fetchReturn evs hp hf => exact ⟨ha, hca⟩
    | sendEvent e rest hp hf hcap => exact ⟨ha, hca⟩
    | producerObservesCancel hp hcc => exact ⟨ha, hca⟩
    | deliver e rest hcons hb => rw [hcons] at hca; cases hca
    | consumerObservesCancel hcons hcc => rw [hcons] at hca; cases hca

/-- Witness for C8 at a concrete run: with the consumer already terminated,
a producer step changes nothing about the appended entries. -/
theorem claim8_witness :
    (⟨true, [demoEvent], [], false, false, []⟩ : TailRunState).appended =
      (⟨true, [demoEvent], [], true, false, []⟩ : TailRunState).appended ∧
    (⟨true, [demoEvent], [], false, false, []⟩ : TailRunState).consumerAlive = false :=
  claim8_amended ⟨true, [demoEvent], [], true, false, []⟩
    ⟨true, [demoEvent], [], false, false, []⟩
    (Relation.ReflTransGen.single (TailStep.producerObservesCancel _ rfl rfl)) rfl

/-- Claim C9 counterexample: start tailing, stop it (`Refresh` does exactly
this), and start again before the first goroutine has exited — the state
with two live tailing goroutines is reachable, because `startTailing`
cancels the prior context but never awaits the prior loop's termination. -/
theorem claim9_counterexample :
    CtlReach ctlInit ⟨[true, false], true⟩ ∧
    (⟨[true, false], true⟩ : TailingCtl).loops.length = 2 := by
  refine ⟨?_, rfl⟩
  have h1 : CtlStep ctlInit ⟨[false], true⟩ := CtlStep.start ctlInit rfl
  have h2 : CtlStep ⟨[false], true⟩ ⟨[true], false⟩ := CtlStep.stop _
  have h3 : CtlStep ⟨[true], false⟩ ⟨[true, false], true⟩ := CtlStep.start _ rfl
  exact .head h1 (.head h2 (.head h3 .refl))

theorem count_false_map_true (l : List Bool) : (l.map (fun _ => true)).count false = 0 := by
  rw [List.count_eq_zero]
  intro hmem
  rcases List.mem_map.mp hmem with ⟨x, _, hx⟩
  cases hx

/-- Claim C9 (amended): `startTailing` cancels the prior loop's context but
does not await its termination, so several tailing goroutines may be live at
once; what every reachable control state does guarantee is that at most one
of them is non-cancelled (a fresh start first cancels all still-running
loops). -/
theorem claim9_amended (s : TailingCtl) (h : CtlReach ctlInit s) :
    s.loops.count false ≤ 1 := by
  induction h with
  | refl => simp [ctlInit]
  | tail hr hstep ih =>
    cases hstep with
    | start hb =>
      simp [List.count_append, List.count_replicate, count_false_map_true]
    | startSkip hb => exact ih
    | stop =>
      simp [List.count_replicate, count_false_map_true]
    | exitLoop l1 l2 bt hb =>
      rw [hb] at ih
      simp only [List.count_append, List.count_cons] at ih ⊢
      omega

/-- Witness for C9 at the initial control state: no loop is live there. -/
theorem claim9_witness : ctlInit.loops.count false ≤ 1 :=
  claim9_amended ctlInit Relation.ReflTransGen.refl

theorem leadsWithB_length (sub : GoStr) :
    ∀ s, leadsWithB sub s = true → sub.length ≤ s.length := by
  induction sub with
  | nil => intro s _; simp
  | cons a as ih =>
    intro s h
    cases s with
    | nil => simp [leadsWithB] at h
    | cons b bs =>
      simp only [leadsWithB, Bool.and_eq_true] at h
      simpa using ih bs h.2

theorem goIndexFrom_spec (sub : GoStr) :
    ∀ (s : GoStr) (i j : Nat), goIndexFrom sub i s = some j →
      i ≤ j ∧ j - i ≤ s.length ∧ leadsWithB sub (s.drop (j - i)) = true := by
  intro s
  induction s with
  | nil =>
    intro i j h
    unfold goIndexFrom at h
    split at h
    · next hlw =>
      rcases Option.some.inj h with rfl
      exact ⟨le_refl _, by simp, by simpa using hlw⟩
    · cases h
  | cons b t ih =>
    intro i j h
    unfold goIndexFrom at h
    split at h
    · next hlw =>
      rcases Option.some.inj h with rfl
      exact ⟨le_refl _, by simp, by simpa using hlw⟩
    · rcases ih (i + 1) j h with ⟨hij, hlen, hlw⟩
      refine ⟨by omega, by simp; omega, ?_⟩
      have hd : (b :: t).drop (j - i) = t.drop (j - (i + 1)) := by
        have h1 : j - i = (j - (i + 1)) + 1 := by omega
        rw [h1]
        rfl
      rw [hd]
      exact hlw

theorem goIndexBytes_spec (s sub : GoStr) (j : Nat) (h : goIndexBytes s sub = some j) :
    j ≤ s.length ∧ leadsWithB sub (s.drop j) = true := by
  rcases goIndexFrom_spec sub s 0 j h with ⟨_, hlen, hlw⟩
  simpa using ⟨hlen, hlw⟩

theorem utf8DecodeCore_ascii :
    ∀ (s : GoStr), (∀ b ∈ s, b < 128) → utf8DecodeCore s.length s = s := by
  intro s
  induction s with
  | nil => intro _; rfl
  | cons b rest ih =>
    intro h
    have hb : b < 128 := h b (by simp)
    show utf8DecodeCore (rest.length + 1) (b :: rest) = b :: rest
    unfold utf8DecodeCore
    rw [if_pos hb]
    rw [ih (fun x hx => h x (List.mem_cons_of_mem _ hx))]

theorem utf8Decode_ascii (s : GoStr) (h : ∀ b ∈ s, b < 128) : utf8Decode s = s :=
  utf8DecodeCore_ascii s h

theorem goRuneToLower_lt (b : Nat) (hb : b < 128) : goRuneToLower b < 128 := by
  unfold goRuneToLower
  split
  · next hcond =>
    simp only [Bool.and_eq_true, decide_eq_true_eq] at hcond
    omega
  · split
    · omega
    · exact hb

theorem utf8EncodeRune_ascii (r : Nat) (h : r < 128) : utf8EncodeRune r = [r] := by
  unfold utf8EncodeRune
  rw [if_pos h]

theorem goToLowerBytes_ascii (s : GoStr) (h : ∀ b ∈ s, b < 128) :
    goToLowerBytes s = s.map goRuneToLower := by
  unfold goToLowerBytes
  rw [utf8Decode_ascii s h]
  induction s with
  | nil => rfl
  | cons b t ih =>
    rw [List.flatMap_cons, List.map_cons,
      utf8EncodeRune_ascii _ (goRuneToLower_lt b (h b (by simp))),
      ih (fun x hx => h x (List.mem_cons_of_mem _ hx))]
    rfl

theorem drop_take_append (l : GoStr) (a b c : Nat) (hab : a ≤ b) (hbc : b ≤ c) :
    (l.take b).drop a ++ (l.take c).drop b = (l.take c).drop a := by
  rw [List.drop_take, List.drop_take, List.drop_take]
  have hdrop : l.drop b = (l.drop a).drop (b - a) := by
    rw [List.drop_drop]
    congr 1
    omega
  rw [hdrop]
  rw [← List.take_add]
  congr 1
  omega

theorem take_drop_drop (l : GoStr) (i j : Nat) (hij : i ≤ j) (hj : j ≤ l.length) :
    (l.take j).drop i ++ l.drop j = l.drop i := by
  conv_rhs => rw [← List.take_append_drop j l]
  rw [List.drop_append_of_le_length]
  simp
  omega

theorem renderLoop_ok (text lowerText lowerSearch : GoStr) (termLen : Nat)
    (hlen : lowerText.length = text.length)
    (hterm : lowerSearch.length = termLen) (hpos : 0 < termLen) :
    ∀ (fuel start : Nat) (acc : List HPiece),
      start ≤ text.length → text.length + 1 ≤ fuel + start →
      ∃ ps, renderLoop fuel text lowerText lowerSearch termLen start acc = some ps ∧
        strippedBytes ps = strippedBytes acc ++ text.drop start := by
  intro fuel
  induction fuel with
  | zero =>
    intro start acc hstart hfuel
    omega
  | succ fuel ih =>
    intro start acc hstart hfuel
    have hslice : goSliceFrom lowerText start = some (lowerText.drop start) := by
      unfold goSliceFrom
      rw [if_pos (by omega)]
    cases hidx : goIndexBytes (lowerText.drop start) lowerSearch with
    | none =>
      have hslice2 : goSliceFrom text start = some (text.drop start) := by
        unfold goSliceFrom
        rw [if_pos hstart]
      refine ⟨acc ++ [.plain (text.drop start)], ?_, ?_⟩
      · simp only [renderLoop, hslice, hidx, hslice2]
      · unfold strippedBytes
        rw [List.flatMap_append]
        simp
    | some idx =>
      rcases goIndexBytes_spec _ _ _ hidx with ⟨hile, hlw⟩
      have hsub := leadsWithB_length lowerSearch _ hlw
      simp only [List.length_drop] at hsub hile
      have hbound : start + idx + termLen ≤ text.length := by
        rw [hterm] at hsub
        omega
      have hpre : goSliceRange text start (start + idx) =
          some ((text.take (start + idx)).drop start) := by
        unfold goSliceRange
        rw [if_pos]
        simp only [Bool.and_eq_true, decide_eq_true_eq]
        omega
      have hm : goSliceRange text (start + idx) (start + idx + termLen) =
          some ((text.take (start + idx + termLen)).drop (start + idx)) := by
        unfold goSliceRange
        rw [if_pos]
        simp only [Bool.and_eq_true, decide_eq_true_eq]
        omega
      obtain ⟨ps, hps, hstrip⟩ := ih (start + idx + termLen)
        (acc ++ [.plain ((text.take (start + idx)).drop start),
                 .highlighted ((text.take (start + idx + termLen)).drop (start + idx))])
        (by omega) (by omega)
      refine ⟨ps, ?_, ?_⟩
      · simp only [renderLoop, hslice, hidx, hpre, hm]
        exact hps
      · rw [hstrip]
        unfold strippedBytes
        rw [List.flatMap_append]
        simp only [List.flatMap_cons, List.flatMap_nil, List.append_nil, List.append_assoc]
        congr 1
        rw [← List.append_assoc,
          drop_take_append text start (start + idx) (start + idx + termLen)
            (by omega) (by omega),
          take_drop_drop text start (start + idx + termLen) (by omega) hbound]

/-- Claim C10 counterexample: for `text = searchTerm = "K"` (KELVIN
SIGN) — an input where lowercasing changes the byte length of the string,
which the claim explicitly includes — `renderSimpleHighlight` does not
return any output at all: the match positions found in the one-byte
`lowerText` are applied to the three-byte `text`, `start` advances to 3,
and the next iteration's `lowerText[start:]` is a Go slice-out-of-range
runtime panic (`none` here).  No output exists whose marker-stripped form
could equal the input. -/
theorem claim10_counterexample :
    (goToLowerBytes kelvinBytes).length ≠ kelvinBytes.length ∧
    renderSimpleHighlight kelvinBytes kelvinBytes = none := by
  exact ⟨by decide, by decide⟩

/-- Claim C10 (amended): for every ASCII text and every non-empty ASCII
search term, `renderSimpleHighlight` completes and otherwise preserves the
text: deleting the inserted marker strings from the output — that is,
concatenating the text slices the builder wrote — yields exactly the input
text.  For inputs where lowercasing changes the byte length of the string,
the function can instead panic with a slice-bounds violation, so the
preservation claim cannot extend to them. -/
theorem claim10_amended (text term : GoStr)
    (htext : ∀ b ∈ text, b < 128) (hterm : ∀ b ∈ term, b < 128) (hne : term ≠ []) :
    ∃ ps, renderSimpleHighlight text term = some ps ∧ strippedBytes ps = text := by
  have hlow : goToLowerBytes text = text.map goRuneToLower := goToLowerBytes_ascii text htext
  have hlows : goToLowerBytes term = term.map goRuneToLower := goToLowerBytes_ascii term hterm
  have hlen : (goToLowerBytes text).length = text.length := by
    rw [hlow]
    simp
  have hterm2 : (goToLowerBytes term).length = term.length := by
    rw [hlows]
    simp
  have hpos : 0 < term.length := List.length_pos.mpr hne
  unfold renderSimpleHighlight
  obtain ⟨ps, hps, hstrip⟩ := renderLoop_ok text (goToLowerBytes text) (goToLowerBytes term)
    term.length hlen hterm2 hpos ((goToLowerBytes text).length + 2) 0 []
    (by omega) (by rw [hlen]; omega)
  refine ⟨ps, hps, ?_⟩
  rw [hstrip]
  simp [strippedBytes]

/-- Witness for C10 at a concrete input: highlighting "error" in the ASCII
text "an ERror" succeeds and stripping the markers returns the text. -/
theorem claim10_witness :
    ∃ ps, renderSimpleHighlight (asciiBytes "an ERror") (asciiBytes "error") = some ps ∧
      strippedBytes ps = asciiBytes "an ERror" :=
  claim10_amended (asciiBytes "an ERror") (asciiBytes "error")
    (by decide) (by decide) (by decide)

end SwissArmyTui
